import Mathlib

/-!
Verification of the amplitude-glue schema-inference engine.

The Lean definitions below are a shallow embedding of
`src/amplitude_glue/schema_inference.py` and
`src/amplitude_glue/warehouse_queries.py`.  Parsed JSON values are
modelled as an explicit tagged union; Python dicts are modelled as
insertion-ordered association lists with the exact `setdefault` /
assignment semantics the source relies on.
-/

namespace AmplitudeGlue


/-- A parsed JSON value.  Python floats are carried by their `repr`
string (the embedding never computes with them; the source only tags
them `double` and prints them). -/
inductive Value where
  | vNull : Value
  | vBool (b : Bool) : Value
  | vInt (n : Int) : Value
  | vFloat (r : String) : Value
  | vStr (s : String) : Value
  | vArr (elems : List Value) : Value
  | vObj (fields : List (String × Value)) : Value

/-- A record: an insertion-ordered mapping from string keys to values
(`Dict[str, Any]` in the source). -/
abbrev Record := List (String × Value)

/-- The single-quote character, used by the SQL templates. -/
def sq : String := String.singleton (Char.ofNat 39)

/-- One character of `json.dumps` string escaping (`ensure_ascii=False`). -/
def escapeJsonChar (c : Char) : String :=
  if c = '\"' then "\\\""
  else if c = '\\' then "\\\\"
  else if c = '\n' then "\\n"
  else if c = '\t' then "\\t"
  else if c = '\r' then "\\r"
  else if c = Char.ofNat 8 then "\\b"
  else if c = Char.ofNat 12 then "\\f"
  else if c.toNat < 32 then
    "\\u00" ++ String.mk [hexDigit (c.toNat / 16), hexDigit (c.toNat % 16)]
  else String.singleton c
where hexDigit (n : Nat) : Char :=
  if n < 10 then Char.ofNat (48 + n) else Char.ofNat (87 + n)

/-- `json.dumps` of a string. -/
def jsonQuote (s : String) : String :=
  "\"" ++ String.join (s.data.map escapeJsonChar) ++ "\""

/-- `json.dumps(value, ensure_ascii=False)` with the default separators
`", "` and `": "`. -/
def jsonDumps : Value → String
  | .vNull => "null"
  | .vBool true => "true"
  | .vBool false => "false"
  | .vInt n => toString n
  | .vFloat r => r
  | .vStr s => jsonQuote s
  | .vArr elems =>
      "[" ++ String.intercalate ", " (elems.attach.map (fun e => jsonDumps e.1)) ++ "]"
  | .vObj fields =>
      "\x7b" ++
        String.intercalate ", "
          (fields.attach.map (fun f => jsonQuote f.1.1 ++ ": " ++ jsonDumps f.1.2)) ++
        "\x7d"
decreasing_by
  · have := List.sizeOf_lt_of_mem e.2
    simp_all
    omega
  · have h := List.sizeOf_lt_of_mem f.2
    obtain ⟨⟨k, v⟩, hm⟩ := f
    simp_all [Prod.mk.sizeOf_spec]
    omega

/-- `value.endswith("Z") and "T" in value`, etc. — the heuristic
ISO-8601-ish detector `_looks_like_timestamp`. -/
def _looks_like_timestamp (value : String) : Bool :=
  (value.data.getLast? == some 'Z' && value.data.contains 'T')
    || (value.data.count '-' = 2 && (value.data.contains 'T' || value.data.contains ' '))

/-- `_infer_type`: map a value to its datatype label.  The Python set of
element labels is modelled by `dedup` (deduplication with the same
membership); the single-element `pop` is the unique element, and the
mixed branch sorts the distinct labels, exactly as the source does. -/
def _infer_type : Value → String
  | .vBool _ => "boolean"
  | .vInt _ => "integer"
  | .vFloat _ => "double"
  | .vArr elems =>
      if elems.isEmpty then "array"
      else
        let inner := (elems.attach.map (fun e => _infer_type e.1)).dedup
        if inner.length = 1 then "array<" ++ inner.headD "" ++ ">"
        else "array<mixed:" ++ String.intercalate "," (List.insertionSort (· ≤ ·) inner) ++ ">"
  | .vObj _ => "object"
  | .vStr s => if _looks_like_timestamp s then "timestamp" else "string"
  | .vNull => "unknown"
decreasing_by
  have := List.sizeOf_lt_of_mem e.2
  simp_all
  omega

/-- Python's `s[:80]`: the first 80 characters. -/
def pySlice80 (s : String) : String := String.mk (s.data.take 80)

/-- The preview built for mappings/arrays: truncate the serialization to
80 characters and append `…` when the truncated form is exactly 80
characters long. -/
def previewOf (d : String) : String :=
  let preview := pySlice80 d
  preview ++ (if preview.data.length = 80 then "…" else "")

/-- `_example_value`: `None` has no example, mappings/arrays preview
their JSON serialization, any other value uses `str(value)`. -/
def _example_value : Value → Option String
  | .vNull => none
  | .vObj fields => some (previewOf (jsonDumps (.vObj fields)))
  | .vArr elems => some (previewOf (jsonDumps (.vArr elems)))
  | .vBool b => some (if b then "True" else "False")
  | .vInt n => some (toString n)
  | .vFloat r => some r
  | .vStr s => some s

/-- Module-level heuristic constants of `schema_inference.py`. -/
def IGNORED_KEYS : List String := ["timestamp", "time", "ts", "received_at", "sent_at"]

def USER_HINT_KEYS : List String := ["user_id", "customer_id", "account_id", "profile", "user"]

def GROUP_HINT_KEYS : List String := ["group_id", "organization", "team", "company", "group"]

def EVENT_HINT_KEYS : List String := ["event_type", "event", "action", "type", "name"]

/-- Python's `pat in s` substring test. -/
def str_contains (s pat : String) : Bool := decide (List.IsInfix pat.data s.data)

/-- Python's `str.lower()` on one character (ASCII range, which covers
every character the heuristics compare against). -/
def py_char_lower (c : Char) : Char :=
  if 65 ≤ c.toNat && c.toNat ≤ 90 then Char.ofNat (c.toNat + 32) else c

/-- Python's `str.lower()`. -/
def py_lower (s : String) : String := String.mk (s.data.map py_char_lower)

/-- Python's `str.strip()` with no argument: drop leading and trailing
whitespace. -/
def py_strip (s : String) : String :=
  String.mk (((s.data.dropWhile Char.isWhitespace).reverse.dropWhile Char.isWhitespace).reverse)

/-- `_is_user_property`: some user hint occurs in the lower-cased key. -/
def _is_user_property (key : String) : Bool :=
  USER_HINT_KEYS.any (fun hint => str_contains (py_lower key) hint)

/-- `_is_group_property`: some group hint occurs in the lower-cased key. -/
def _is_group_property (key : String) : Bool :=
  GROUP_HINT_KEYS.any (fun hint => str_contains (py_lower key) hint)

/-- The four classification targets of a flattened field. -/
inductive Bucket where
  | user : Bucket
  | group : Bucket
  | ignored : Bucket
  | event : Bucket
  deriving DecidableEq

/-- The `if/elif/elif/else` chain in the body of `analyze_payload`
(lines 72–101): user hints first, then group hints, then the exact
(non-lowered) membership test in `IGNORED_KEYS`, else event property. -/
def classify_key (nk : String) : Bucket :=
  if _is_user_property nk then .user
  else if _is_group_property nk then .group
  else if nk ∈ IGNORED_KEYS then .ignored
  else .event

/-- `key.replace(" ", "_")`. -/
def normalize_key (k : String) : String :=
  String.mk (k.data.map (fun c => if c = ' ' then '_' else c))

/-- Python dict assignment `m[k] = v`: overwrite in place when the key
exists, append otherwise. -/
def dictInsert (m : Record) (k : String) (v : Value) : Record :=
  if m.any (fun p => p.1 == k) then m.map (fun p => if p.1 = k then (k, v) else p)
  else m ++ [(k, v)]

/-- Python `m.update(m2)`: insert `m2`'s entries in order. -/
def dictUpdate (m m2 : Record) : Record :=
  m2.foldl (fun acc p => dictInsert acc p.1 p.2) m

/-- The loop of `_flatten`: walk the entries, recursing into nested
mappings and inserting leaves under their dotted path. -/
def _flatten_go (sep parent : String) : Record → Record → Record
  | [], items => items
  | (k, v) :: rest, items =>
    let newKey := if parent.data.isEmpty then k else parent ++ sep ++ k
    match v with
    | .vObj inner =>
        _flatten_go sep parent rest (dictUpdate items (_flatten_go sep newKey inner []))
    | _ => _flatten_go sep parent rest (dictInsert items newKey v)
termination_by r _ => sizeOf r
decreasing_by
  all_goals (simp_all; try omega)

/-- `_flatten` with its default arguments (`parent_key=""`, `separator="."`). -/
def _flatten (data : Record) : Record := _flatten_go "." "" data []

/-- `record.get(k)` (first entry wins, as in a Python dict). -/
def dictGet (record : Record) (k : String) : Option Value :=
  (record.find? (fun p => p.1 == k)).map (·.2)

/-- The scan over `EVENT_HINT_KEYS` in `_detect_event_type`. -/
def _detect_go (record : Record) : List String → String
  | [] => "unknown_event"
  | k :: rest =>
    match dictGet record k with
    | some (.vStr s) => if s.data.isEmpty then _detect_go record rest else py_strip s
    | _ => _detect_go record rest

/-- `_detect_event_type`: first hint key holding a non-empty string,
stripped; `"unknown_event"` otherwise. -/
def _detect_event_type (record : Record) : String :=
  _detect_go record EVENT_HINT_KEYS

structure PropertySuggestion where
  name : String
  datatype : String
  «example» : Option String := none
  description : Option String := none
  deriving DecidableEq

structure EventSchema where
  event_type : String
  properties : List PropertySuggestion := []
  deriving DecidableEq

structure ImportSettings where
  deduplication_key : String
  timestamp_key : String
  delivery_strategy : String
  notes : String
  deriving DecidableEq

structure SchemaSuggestions where
  event_schemas : List EventSchema
  user_properties : List PropertySuggestion
  group_properties : List PropertySuggestion
  import_settings : ImportSettings
  deriving DecidableEq

/-- The three mutable registries of `analyze_payload`'s loop, as
insertion-ordered association lists. -/
structure AnalysisState where
  event_map : List (String × List (String × PropertySuggestion))
  user_props : List (String × PropertySuggestion)
  group_props : List (String × PropertySuggestion)

/-- Python `m.setdefault(k, v)` (also `if k not in m: m[k] = v`): insert
only when absent. -/
def setdefault {α : Type} (m : List (String × α)) (k : String) (v : α) :
    List (String × α) :=
  if m.any (fun p => p.1 == k) then m else m ++ [(k, v)]

/-- `event_map[event_type].setdefault(nk, p)`. -/
def add_event_prop (em : List (String × List (String × PropertySuggestion)))
    (et nk : String) (p : PropertySuggestion) :
    List (String × List (String × PropertySuggestion)) :=
  em.map (fun q => if q.1 = et then (q.1, setdefault q.2 nk p) else q)

def user_suggestion (nk dt : String) (ex : Option String) : PropertySuggestion :=
  { name := nk, datatype := dt, «example» := ex,
    description := some "User-level attribute inferred from payload" }

def group_suggestion (nk dt : String) (ex : Option String) : PropertySuggestion :=
  { name := nk, datatype := dt, «example» := ex,
    description := some "Group/organization attribute inferred from payload" }

def event_suggestion (nk dt : String) (ex : Option String) : PropertySuggestion :=
  { name := nk, datatype := dt, «example» := ex,
    description := some ("Captured from field `" ++ nk ++ "`") }

/-- The body of the inner `for key, value in flattened.items()` loop. -/
def process_field (et : String) (st : AnalysisState) (kv : String × Value) :
    AnalysisState :=
  let nk := normalize_key kv.1
  let dt := _infer_type kv.2
  let ex := _example_value kv.2
  match classify_key nk with
  | .user => { st with user_props := setdefault st.user_props nk (user_suggestion nk dt ex) }
  | .group => { st with group_props := setdefault st.group_props nk (group_suggestion nk dt ex) }
  | .ignored => st
  | .event => { st with event_map := add_event_prop st.event_map et nk (event_suggestion nk dt ex) }

/-- The body of the outer `for record in records` loop. -/
def process_record (st : AnalysisState) (record : Record) : AnalysisState :=
  let et := _detect_event_type record
  let st1 : AnalysisState := { st with event_map := setdefault st.event_map et [] }
  (_flatten record).foldl (process_field et) st1

/-- `sorted(props.values(), key=lambda p: p.name)`. -/
def sort_props (props : List PropertySuggestion) : List PropertySuggestion :=
  List.insertionSort (fun p q => p.name ≤ q.name) props

/-- `sorted(event_map.items())` (keys are unique, so only the key part
of the tuple comparison is ever consulted). -/
def sort_event_map (em : List (String × List (String × PropertySuggestion))) :
    List (String × List (String × PropertySuggestion)) :=
  List.insertionSort (fun a b => a.1 ≤ b.1) em

/-- The key test of `_guess_timestamp_key`. -/
def _ts_key_match (k : String) : Bool :=
  let lowered := py_lower k
  str_contains lowered "time" || str_contains lowered "timestamp"
    || decide (List.IsSuffix ['_', 'a', 't'] lowered.data)

/-- `_guess_timestamp_key`: first matching top-level key across records,
in record order then key order; `"timestamp"` by default. -/
def _guess_timestamp_key (records : List Record) : String :=
  match ((records.map (fun r => r.map (·.1))).flatten.find? _ts_key_match) with
  | some k => k
  | none => "timestamp"

/-- `candidate_counts[key] = candidate_counts.get(key, 0) + 1`. -/
def bump_count (counts : List (String × Nat)) (k : String) : List (String × Nat) :=
  if counts.any (fun p => p.1 == k) then
    counts.map (fun p => if p.1 = k then (p.1, p.2 + 1) else p)
  else counts ++ [(k, 1)]

/-- Python's `max(candidate_counts, key=candidate_counts.get)`: walk the
keys in insertion order, replacing the current best only on a strictly
larger count. -/
def _max_count_go (best : String × Nat) : List (String × Nat) → String × Nat
  | [] => best
  | c :: rest => if best.2 < c.2 then _max_count_go c rest else _max_count_go best rest

/-- `_guess_dedup_key`: count top-level keys whose lower-cased form is
exactly `event_id`, `id` or `uuid`; most frequent wins, first-seen on
ties; `"event_id"` when no candidate occurs. -/
def _guess_dedup_key (records : List Record) : String :=
  let counts := records.foldl
    (fun acc r => r.foldl
      (fun acc2 p =>
        if ["event_id", "id", "uuid"].contains (py_lower p.1) then bump_count acc2 p.1
        else acc2)
      acc)
    []
  match counts with
  | [] => "event_id"
  | c :: rest => (_max_count_go c rest).1

def NOTES : String :=
  "Review mappings before production import; adjust warehouse queries for column names."

/-- The empty starting state of the aggregation loop (the three empty
dicts created before the record loop). -/
def st0 : AnalysisState := ⟨[], [], []⟩

/-- The aggregation and output assembly of `analyze_payload` once the
records are loaded (lines 57–135). -/
def analyze_records (records : List Record) : SchemaSuggestions :=
  { event_schemas :=
      (sort_event_map (records.foldl process_record st0).event_map).map
        (fun p => { event_type := p.1, properties := sort_props (p.2.map (·.2)) })
    user_properties := sort_props ((records.foldl process_record st0).user_props.map (·.2))
    group_properties := sort_props ((records.foldl process_record st0).group_props.map (·.2))
    import_settings :=
      { deduplication_key := _guess_dedup_key records
        timestamp_key := _guess_timestamp_key records
        delivery_strategy := "timely"
        notes := NOTES } }

/-- The outcome of the `json.loads` calls on a given input text: the
whole-text parse (`none` = `JSONDecodeError`) and the per-non-blank-line
parses, plus the path used in the error message. -/
structure PayloadInput where
  path : String
  whole : Option Value
  lines : List (Option Value)

/-- `_load_records`: whole-text array keeps only mapping elements, a
whole-text mapping becomes a single record, anything else (scalar result
or parse failure) falls through to newline-delimited parsing, which
keeps only lines parsing to mappings. -/
def _load_records (input : PayloadInput) : List Record :=
  match input.whole with
  | some (.vArr elems) =>
      elems.filterMap (fun v => match v with | .vObj o => some o | _ => none)
  | some (.vObj o) => [o]
  | _ =>
      input.lines.filterMap
        (fun ov => match ov with | some (.vObj o) => some o | _ => none)

/-- `analyze_payload`: load, fail when no records were found, otherwise
analyze.  The raised `ValueError` is modelled as the `Except.error`
branch. -/
def analyze_payload (input : PayloadInput) : Except String SchemaSuggestions :=
  let records := _load_records input
  if records.isEmpty then .error ("No JSON records found in " ++ input.path)
  else .ok (analyze_records records)

/-! Embedding of `warehouse_queries.py`. -/

/-- `schema.event_type.replace("'", "''")`. -/
def escape_quotes (s : String) : String :=
  String.join (s.data.map (fun c => if c = Char.ofNat 39 then sq ++ sq else String.singleton c))

/-- `name.replace(".", "_").replace("[", "_").replace("]", "")`. -/
def alias_of (name : String) : String :=
  String.mk (name.data.filterMap
    (fun c => if c = '.' || c = '[' then some '_' else if c = ']' then none else some c))

/-- Python's `part.strip("'")`: drop all leading and trailing single quotes. -/
def strip_quotes (s : String) : String :=
  String.mk (((s.data.dropWhile (fun c => c = Char.ofNat 39)).reverse.dropWhile
    (fun c => c = Char.ofNat 39)).reverse)

/-- Python's `str.split(".")`: cut at every dot, keeping empty segments. -/
def split_on_dot : List Char → List (List Char)
  | [] => [[]]
  | c :: rest =>
    match split_on_dot rest with
    | seg :: segs => if c = '.' then [] :: seg :: segs else (c :: seg) :: segs
    | [] => [[]]

/-- `_path_parts`: normalize brackets to dots, split on dots, strip
whitespace and quotes, keep non-empty components. -/
def _path_parts (name : String) : List String :=
  let replaced := name.data.filterMap
    (fun c => if c = '[' then some '.' else if c = ']' then none else some c)
  (split_on_dot replaced).filterMap
    (fun part =>
      let cleaned := strip_quotes (py_strip (String.mk part))
      if cleaned.data.isEmpty then none else some cleaned)

/-- `_projection`: dialect-specific path accessor plus alias.  The final
branch models the `raise ValueError` for unsupported dialects; it is
unreachable from `generate_queries`, which passes only the four labels. -/
def _projection (prop : PropertySuggestion) (warehouse : String) : String :=
  let alias0 := alias_of prop.name
  let parts := _path_parts prop.name
  if warehouse == "snowflake" then
    (parts.foldl (fun ptr part => ptr ++ ":\"" ++ part ++ "\"") "payload") ++ "::string AS " ++ alias0
  else if warehouse == "databricks" then
    (parts.foldl (fun ptr part => ptr ++ "." ++ part) "payload") ++ " AS " ++ alias0
  else if warehouse == "bigquery" then
    (parts.foldl (fun ptr part => ptr ++ "." ++ part) "payload") ++ " AS " ++ alias0
  else if warehouse == "redshift" then
    (parts.foldl (fun ptr part => ptr ++ "[" ++ sq ++ part ++ sq ++ "]") "payload") ++ " AS " ++ alias0
  else "ValueError: Unsupported warehouse " ++ warehouse

/-- `_select_block`: the per-event-schema `SELECT` block. -/
def _select_block (schema : EventSchema) (warehouse : String) : String :=
  let event_literal := escape_quotes schema.event_type
  let lines :=
    ["SELECT"]
      ++ ["    " ++ sq ++ event_literal ++ sq ++ " AS event_type,"]
      ++ schema.properties.map (fun prop => "    " ++ _projection prop warehouse ++ ",")
      ++ ["    CURRENT_TIMESTAMP AS loaded_at"]
  String.intercalate "\n" lines

/-- `"\nUNION ALL\n".join(selects)`. -/
def union_all_join (selects : List String) : String :=
  String.intercalate ("\n" ++ "UNION ALL" ++ "\n") selects

def _snowflake_query (event_schemas : List EventSchema) : String :=
  let body := union_all_join (event_schemas.map (fun schema => _select_block schema "snowflake"))
  "-- Snowflake example: staged JSON ingested into VARIANT column named payload\n"
    ++ "WITH staged AS (\n    SELECT payload, metadata:source_file::string AS source_file\n    FROM @amplitude.stage/events\n)\n"
    ++ "SELECT * FROM (" ++ body ++ ")"

def _databricks_query (event_schemas : List EventSchema) : String :=
  let body := union_all_join (event_schemas.map (fun schema => _select_block schema "databricks"))
  "-- Databricks example leveraging Auto Loader\n"
    ++ "WITH bronze AS (\n    SELECT * FROM delta.`/mnt/amplitude/raw`\n)\n"
    ++ "SELECT * FROM (" ++ body ++ ")"

def _bigquery_query (event_schemas : List EventSchema) : String :=
  let body := union_all_join (event_schemas.map (fun schema => _select_block schema "bigquery"))
  "-- BigQuery example reading from JSON ingestion table\n"
    ++ "WITH source AS (\n    SELECT payload, _FILE_NAME AS source_file\n    FROM `amplitude.events_raw`\n)\n"
    ++ "SELECT * FROM (" ++ body ++ ")"

def _redshift_query (event_schemas : List EventSchema) : String :=
  let body := union_all_join (event_schemas.map (fun schema => _select_block schema "redshift"))
  "-- Redshift example using SUPER column projection\n"
    ++ "WITH staged AS (\n    SELECT payload\n    FROM amplitude_raw\n)\n"
    ++ "SELECT * FROM (" ++ body ++ ")"

/-- `generate_queries`: the four-dialect mapping, in insertion order. -/
def generate_queries (suggestions : SchemaSuggestions) : List (String × String) :=
  [("snowflake", _snowflake_query suggestions.event_schemas),
   ("databricks", _databricks_query suggestions.event_schemas),
   ("bigquery", _bigquery_query suggestions.event_schemas),
   ("redshift", _redshift_query suggestions.event_schemas)]

/-! ### Association-list lemmas

The registries of `analyze_payload` are Python dicts used through
`setdefault`; these lemmas characterize lookups and the preserved
invariants. -/

/-- Dict lookup: value of the first entry with the given key. -/
def assoc_find {α : Type} (m : List (String × α)) (k : String) : Option α :=
  (m.find? (fun p => p.1 == k)).map (·.2)

/-! ### Occurrence streams and the characterization of the aggregation -/

abbrev PropMap := List (String × PropertySuggestion)

/-- The user-bucket insertion a single flattened field would perform,
if any. -/
def user_entry (kv : String × Value) : Option (String × PropertySuggestion) :=
  let nk := normalize_key kv.1
  if classify_key nk = .user then
    some (nk, user_suggestion nk (_infer_type kv.2) (_example_value kv.2))
  else none

/-- The group-bucket insertion a single flattened field would perform. -/
def group_entry (kv : String × Value) : Option (String × PropertySuggestion) :=
  let nk := normalize_key kv.1
  if classify_key nk = .group then
    some (nk, group_suggestion nk (_infer_type kv.2) (_example_value kv.2))
  else none

/-- The event-bucket insertion a single flattened field would perform. -/
def event_entry (kv : String × Value) : Option (String × PropertySuggestion) :=
  let nk := normalize_key kv.1
  if classify_key nk = .event then
    some (nk, event_suggestion nk (_infer_type kv.2) (_example_value kv.2))
  else none

/-- All user-bucket insertions, in processing order. -/
def user_occurrences (records : List Record) : PropMap :=
  (records.map (fun r => (_flatten r).filterMap user_entry)).flatten

/-- All group-bucket insertions, in processing order. -/
def group_occurrences (records : List Record) : PropMap :=
  (records.map (fun r => (_flatten r).filterMap group_entry)).flatten

/-- All insertions into the event bucket of a given event type, in
processing order. -/
def event_occurrences (records : List Record) (et : String) : PropMap :=
  ((records.filter (fun r => _detect_event_type r == et)).map
    (fun r => (_flatten r).filterMap event_entry)).flatten

/-- `setdefault`-fold of a list of insertions. -/
def sd_fold (m : PropMap) (l : PropMap) : PropMap :=
  l.foldl (fun acc q => setdefault acc q.1 q.2) m

instance : IsTotal PropertySuggestion (fun p q => p.name ≤ q.name) :=
  ⟨fun a b => le_total a.name b.name⟩

instance : IsTrans PropertySuggestion (fun p q => p.name ≤ q.name) :=
  ⟨fun _ _ _ hab hbc => le_trans hab hbc⟩

instance : IsTotal (String × PropMap) (fun a b => a.1 ≤ b.1) :=
  ⟨fun a b => le_total a.1 b.1⟩

instance : IsTrans (String × PropMap) (fun a b => a.1 ≤ b.1) :=
  ⟨fun _ _ _ hab hbc => le_trans hab hbc⟩

/-- The analysis result for the single empty-object record. -/
def empty_obj_suggestions : SchemaSuggestions :=
  { event_schemas := [{ event_type := "unknown_event", properties := [] }],
    user_properties := [], group_properties := [],
    import_settings :=
      { deduplication_key := "event_id", timestamp_key := "timestamp",
        delivery_strategy := "timely", notes := NOTES } }

/-- The empty-object payload input (whole-text parse is the empty
mapping). -/
def empty_obj_input : PayloadInput := ⟨"payload.json", some (.vObj []), []⟩

/-! ### Flattening: leaf enumeration and collision analysis (C7) -/

/-- The dotted path a key contributes under a parent prefix (the
`new_key` computation of `_flatten`). -/
def pcat (sep parent k : String) : String :=
  if parent.data.isEmpty then k else parent ++ sep ++ k

/-- The naive leaf enumeration of a record: every leaf with its dotted
path, in traversal order, with no dict machinery. -/
def leaf_entries (sep parent : String) : Record → Record
  | [] => []
  | (k, v) :: rest =>
    (match v with
     | .vObj inner => leaf_entries sep (pcat sep parent k) inner
     | _ => [(pcat sep parent k, v)]) ++ leaf_entries sep parent rest
termination_by r => sizeOf r
decreasing_by
  all_goals (simp_all; try omega)

/-- Key discipline under which flattening cannot collide: at every
nesting level the keys are pairwise distinct, non-empty and free of the
separator character. -/
def good_keys : Record → Bool
  | [] => true
  | (k, v) :: rest =>
    !(rest.any (fun p => p.1 == k)) && !(k.data.isEmpty) && !(k.data.contains '.')
      && (match v with | .vObj inner => good_keys inner | _ => true) && good_keys rest
termination_by r => sizeOf r
decreasing_by
  all_goals (simp_all; try omega)

/-- A record with a literal dotted key and a nested object whose
flattened path collides with it. -/
def rec_C7 : Record := [("a.b", .vInt 1), ("a", .vObj [("b", .vInt 2)])]

/-- A nested record satisfying the key discipline. -/
def rec_good : Record := [("a", .vObj [("b", .vInt 2)]), ("c", .vInt 3)]

/-- A first record for the duplicated-field scenario. -/
def cart_r1 : Record := [("event_type", .vStr "cart_abandoned"), ("qty", .vInt 1)]

/-- A second record sharing the event type, with a conflicting type for
the same field. -/
def cart_r2 : Record := [("event_type", .vStr "cart_abandoned"), ("qty", .vStr "two")]

def cart_input : PayloadInput := ⟨"carts.json", some (.vArr [.vObj cart_r1, .vObj cart_r2]), []⟩

def qty_prop : PropertySuggestion :=
  ⟨"qty", "integer", some "1", some "Captured from field `qty`"⟩

def etype_prop : PropertySuggestion :=
  ⟨"event_type", "string", some "cart_abandoned", some "Captured from field `event_type`"⟩

def cart_suggestions : SchemaSuggestions :=
  { event_schemas := [⟨"cart_abandoned", [etype_prop, qty_prop]⟩],
    user_properties := [], group_properties := [],
    import_settings := ⟨"event_id", "timestamp", "timely", NOTES⟩ }

/-! ### Warehouse-query scenario values (C6) -/

def playback_schema : EventSchema :=
  ⟨"playback_started", [⟨"duration", "integer", none, none⟩]⟩

def playback_suggestions : SchemaSuggestions :=
  ⟨[playback_schema], [], [], ⟨"event_id", "timestamp", "timely", NOTES⟩⟩

def playback_two_suggestions : SchemaSuggestions :=
  ⟨[playback_schema, ⟨"playback_stopped", []⟩], [], [],
    ⟨"event_id", "timestamp", "timely", NOTES⟩⟩

/-! ### Example previews (C8) -/

/-- An array whose JSON serialization is exactly 80 characters long. -/
def v80 : Value :=
  .vArr [.vStr "aaaaaaaaaaaaaaaaaaaaaaaaaaaaaaaaaaaaaaaaaaaaaaaaaaaaaaaaaaaaaaaaaaaaaaaaaaaa"]

/-! ### Theorems -/

theorem jsonDumps_arr (elems : List Value) :
    jsonDumps (.vArr elems) =
      "[" ++ String.intercalate ", " (elems.map jsonDumps) ++ "]" := by
  rw [jsonDumps]
  congr 1
  rw [List.attach_map_coe]

theorem jsonDumps_obj (fields : List (String × Value)) :
    jsonDumps (.vObj fields) =
      "\x7b" ++
        String.intercalate ", "
          (fields.map (fun f => jsonQuote f.1 ++ ": " ++ jsonDumps f.2)) ++
        "\x7d" := by
  rw [jsonDumps]
  congr 2
  exact congrArg (String.intercalate ", ")
    (List.attach_map_coe fields (fun p => jsonQuote p.1 ++ ": " ++ jsonDumps p.2))

theorem _infer_type_arr (elems : List Value) :
    _infer_type (.vArr elems) =
      (if elems.isEmpty then "array"
       else
         let inner := (elems.map _infer_type).dedup
         if inner.length = 1 then "array<" ++ inner.headD "" ++ ">"
         else "array<mixed:" ++ String.intercalate "," (List.insertionSort (· ≤ ·) inner) ++ ">") := by
  rw [_infer_type]
  rw [List.attach_map_coe]

theorem any_key_iff {α : Type} (m : List (String × α)) (k : String) :
    (m.any (fun p => p.1 == k) = true) ↔ k ∈ m.map (·.1) := by
  simp [List.any_eq_true, List.mem_map]

theorem assoc_find_isSome_iff {α : Type} (m : List (String × α)) (k : String) :
    (assoc_find m k).isSome ↔ k ∈ m.map (·.1) := by
  simp [assoc_find, List.find?_isSome, List.mem_map]

theorem assoc_find_setdefault_self {α : Type} (m : List (String × α)) (k : String) (v : α) :
    assoc_find (setdefault m k v) k = some ((assoc_find m k).getD v) := by
  unfold setdefault
  by_cases hm : m.any (fun p => p.1 == k) = true
  · simp only [hm, if_true]
    have : k ∈ m.map (·.1) := (any_key_iff m k).mp hm
    have hs : (assoc_find m k).isSome := (assoc_find_isSome_iff m k).mpr this
    obtain ⟨v', hv'⟩ := Option.isSome_iff_exists.mp hs
    simp [hv']
  · simp only [hm, if_false]
    have hk : ¬ k ∈ m.map (·.1) := fun h => hm ((any_key_iff m k).mpr h)
    have hn : assoc_find m k = none := by
      cases ho : assoc_find m k with
      | none => rfl
      | some v' =>
        exact absurd ((assoc_find_isSome_iff m k).mp (by simp [ho])) hk
    have : m.find? (fun p => p.1 == k) = none := by
      cases hf : m.find? (fun p => p.1 == k) with
      | none => rfl
      | some q => simp [assoc_find, hf] at hn
    simp [assoc_find, List.find?_append, this, hn]

theorem assoc_find_setdefault_other {α : Type} (m : List (String × α)) (k k' : String) (v : α)
    (h : k' ≠ k) :
    assoc_find (setdefault m k v) k' = assoc_find m k' := by
  unfold setdefault
  by_cases hm : m.any (fun p => p.1 == k) = true
  · simp [hm]
  · simp only [hm, if_false]
    simp [assoc_find, List.find?_append]
    cases hf : m.find? (fun p => p.1 == k') with
    | none => simp [Ne.symm h]
    | some q => simp

theorem assoc_find_foldl_setdefault {α : Type} (l : List (String × α)) :
    ∀ (m : List (String × α)) (k : String),
      assoc_find (l.foldl (fun acc q => setdefault acc q.1 q.2) m) k =
        match assoc_find m k with
        | some v => some v
        | none => (l.find? (fun q => q.1 == k)).map (·.2) := by
  induction l with
  | nil =>
    intro m k
    cases ho : assoc_find m k <;> simp [ho]
  | cons q l ih =>
    intro m k
    simp only [List.foldl_cons]
    rw [ih]
    by_cases hk : k = q.1
    · rw [hk, assoc_find_setdefault_self]
      cases ho : assoc_find m q.1 <;> simp [List.find?_cons, ho]
    · have hbeq : (q.1 == k) = false := by
        simp
        exact fun hh => hk hh.symm
      rw [assoc_find_setdefault_other m q.1 k q.2 hk]
      cases ho : assoc_find m k <;> simp [List.find?_cons, ho, hbeq]

theorem setdefault_mem {α : Type} {m : List (String × α)} {k : String} {v : α} {q : String × α}
    (h : q ∈ setdefault m k v) : q ∈ m ∨ q = (k, v) := by
  unfold setdefault at h
  by_cases hm : m.any (fun p => p.1 == k) = true
  · simp [hm] at h
    exact Or.inl h
  · simp [hm] at h
    rcases h with h | h
    · exact Or.inl h
    · exact Or.inr (by simp [h])

theorem setdefault_forall {α : Type} {P : String × α → Prop} {m : List (String × α)}
    {k : String} {v : α} (h : ∀ q ∈ m, P q) (hv : P (k, v)) :
    ∀ q ∈ setdefault m k v, P q := by
  intro q hq
  rcases setdefault_mem hq with hh | hh
  · exact h q hh
  · exact hh ▸ hv

theorem setdefault_keys_nodup {α : Type} {m : List (String × α)} (k : String) (v : α)
    (h : (m.map (·.1)).Nodup) : ((setdefault m k v).map (·.1)).Nodup := by
  unfold setdefault
  by_cases hm : m.any (fun p => p.1 == k) = true
  · simpa [hm]
  · have hk : ¬ k ∈ m.map (·.1) := fun hh => hm ((any_key_iff m k).mpr hh)
    rw [if_neg hm, List.map_append, List.nodup_append]
    refine ⟨h, by simp, ?_⟩
    intro a ha hb
    simp at hb
    subst hb
    exact hk ha

theorem assoc_find_of_mem {α : Type} {m : List (String × α)} {q : String × α}
    (hq : q ∈ m) (hnd : (m.map (·.1)).Nodup) : assoc_find m q.1 = some q.2 := by
  induction m with
  | nil => cases hq
  | cons p m ih =>
    have hnd' := List.nodup_cons.mp (show (p.1 :: m.map (·.1)).Nodup from by simpa using hnd)
    rcases List.mem_cons.mp hq with hq1 | hq1
    · subst hq1
      simp [assoc_find, List.find?_cons]
    · have hfalse : (p.1 == q.1) = false := by
        simp
        intro hh
        exact hnd'.1 (hh ▸ List.mem_map.mpr ⟨q, hq1, rfl⟩)
      simp only [assoc_find, List.find?_cons, hfalse]
      exact ih hq1 hnd'.2

theorem mem_snd_exists {α : Type} {m : List (String × α)} {v : α}
    (h : v ∈ m.map (·.2)) : ∃ k, (k, v) ∈ m := by
  rcases List.mem_map.mp h with ⟨q, hq, rfl⟩
  exact ⟨q.1, hq⟩

theorem foldl_preserves {σ α : Type} (f : σ → α → σ) (P : σ → Prop)
    (h : ∀ s a, P s → P (f s a)) :
    ∀ (l : List α) (s : σ), P s → P (l.foldl f s) := by
  intro l
  induction l with
  | nil => intro s hs; exact hs
  | cons a l ih => intro s hs; exact ih (f s a) (h s a hs)

theorem sd_fold_append (m : PropMap) (l₁ l₂ : PropMap) :
    sd_fold m (l₁ ++ l₂) = sd_fold (sd_fold m l₁) l₂ := by
  unfold sd_fold
  rw [List.foldl_append]

theorem sd_fold_keys_nodup (m : PropMap) (l : PropMap)
    (h : (m.map (·.1)).Nodup) : ((sd_fold m l).map (·.1)).Nodup := by
  unfold sd_fold
  exact foldl_preserves _ (fun s => (s.map (·.1)).Nodup)
    (fun s q hs => setdefault_keys_nodup q.1 q.2 hs) l m h

theorem sd_fold_mem {m l : PropMap} {q : String × PropertySuggestion}
    (h : q ∈ sd_fold m l) : q ∈ m ∨ q ∈ l := by
  induction l generalizing m with
  | nil => exact Or.inl h
  | cons e l ih =>
    rcases ih (by simpa [sd_fold] using h) with h1 | h1
    · rcases setdefault_mem h1 with h2 | h2
      · exact Or.inl h2
      · exact Or.inr (by simp [h2])
    · exact Or.inr (List.mem_cons_of_mem e h1)

theorem assoc_find_sd_fold_nil (l : PropMap) (k : String) :
    assoc_find (sd_fold [] l) k = (l.find? (fun q => q.1 == k)).map (·.2) := by
  unfold sd_fold
  rw [assoc_find_foldl_setdefault]
  simp [assoc_find]

theorem add_event_prop_keys (em : List (String × PropMap)) (et nk : String)
    (p : PropertySuggestion) :
    (add_event_prop em et nk p).map (·.1) = em.map (·.1) := by
  unfold add_event_prop
  rw [List.map_map]
  apply List.map_congr_left
  intro q _
  by_cases h : q.1 = et <;> simp [h]

theorem assoc_find_add_event_prop_self (em : List (String × PropMap)) (et nk : String)
    (p : PropertySuggestion) :
    assoc_find (add_event_prop em et nk p) et
      = (assoc_find em et).map (fun b => setdefault b nk p) := by
  induction em with
  | nil => rfl
  | cons q em ih =>
    unfold add_event_prop at ih ⊢
    by_cases h : q.1 = et
    · simp [assoc_find, List.find?_cons, h]
    · have hb : (q.1 == et) = false := by simpa using h
      simp only [List.map_cons, if_neg h]
      simp only [assoc_find, List.find?_cons, hb] at ih ⊢
      exact ih

theorem assoc_find_add_event_prop_other (em : List (String × PropMap)) (et et' nk : String)
    (p : PropertySuggestion) (h : et' ≠ et) :
    assoc_find (add_event_prop em et nk p) et' = assoc_find em et' := by
  induction em with
  | nil => rfl
  | cons q em ih =>
    unfold add_event_prop at ih ⊢
    by_cases h1 : q.1 = et
    · have h2 : (et == et') = false := by
        simp
        exact fun hh => h (Eq.symm hh)
      simp only [List.map_cons, if_pos h1]
      simp only [assoc_find, List.find?_cons, h1, h2] at ih ⊢
      exact ih
    · simp only [List.map_cons, if_neg h1]
      by_cases h2 : q.1 = et'
      · have hb2 : (q.1 == et') = true := by simpa using h2
        simp [assoc_find, List.find?_cons, hb2]
      · have hb2 : (q.1 == et') = false := by simpa using h2
        simp only [assoc_find, List.find?_cons, hb2] at ih ⊢
        exact ih

theorem process_field_user_props (et : String) (st : AnalysisState) (kv : String × Value) :
    (process_field et st kv).user_props =
      match user_entry kv with
      | some q => setdefault st.user_props q.1 q.2
      | none => st.user_props := by
  unfold process_field user_entry
  cases hc : classify_key (normalize_key kv.1) <;> simp [hc]

theorem process_field_group_props (et : String) (st : AnalysisState) (kv : String × Value) :
    (process_field et st kv).group_props =
      match group_entry kv with
      | some q => setdefault st.group_props q.1 q.2
      | none => st.group_props := by
  unfold process_field group_entry
  cases hc : classify_key (normalize_key kv.1) <;> simp [hc]

theorem process_field_event_map (et : String) (st : AnalysisState) (kv : String × Value) :
    (process_field et st kv).event_map =
      match event_entry kv with
      | some q => add_event_prop st.event_map et q.1 q.2
      | none => st.event_map := by
  unfold process_field event_entry
  cases hc : classify_key (normalize_key kv.1) <;> simp [hc]

theorem foldl_fields_user (et : String) (fl : List (String × Value)) :
    ∀ st : AnalysisState,
      (fl.foldl (process_field et) st).user_props
        = sd_fold st.user_props (fl.filterMap user_entry) := by
  induction fl with
  | nil => intro st; rfl
  | cons kv fl ih =>
    intro st
    simp only [List.foldl_cons, List.filterMap_cons]
    rw [ih]
    cases he : user_entry kv with
    | none => simp [process_field_user_props, he]
    | some q => simp [process_field_user_props, he, sd_fold]

theorem foldl_fields_group (et : String) (fl : List (String × Value)) :
    ∀ st : AnalysisState,
      (fl.foldl (process_field et) st).group_props
        = sd_fold st.group_props (fl.filterMap group_entry) := by
  induction fl with
  | nil => intro st; rfl
  | cons kv fl ih =>
    intro st
    simp only [List.foldl_cons, List.filterMap_cons]
    rw [ih]
    cases he : group_entry kv with
    | none => simp [process_field_group_props, he]
    | some q => simp [process_field_group_props, he, sd_fold]

theorem foldl_fields_event (et : String) (fl : List (String × Value)) :
    ∀ (st : AnalysisState) (et' : String),
      assoc_find (fl.foldl (process_field et) st).event_map et'
        = if et' = et
          then (assoc_find st.event_map et).map (fun b => sd_fold b (fl.filterMap event_entry))
          else assoc_find st.event_map et' := by
  induction fl with
  | nil =>
    intro st et'
    by_cases h : et' = et
    · subst h
      cases ho : assoc_find st.event_map et' <;> simp [ho, sd_fold]
    · simp [h]
  | cons kv fl ih =>
    intro st et'
    simp only [List.foldl_cons, List.filterMap_cons]
    rw [ih]
    cases he : event_entry kv with
    | none =>
      have hev : (process_field et st kv).event_map = st.event_map := by
        rw [process_field_event_map, he]
      rw [hev]
    | some q =>
      have hev : (process_field et st kv).event_map
          = add_event_prop st.event_map et q.1 q.2 := by
        rw [process_field_event_map, he]
      rw [hev]
      by_cases h : et' = et
      · rw [if_pos h, if_pos h, assoc_find_add_event_prop_self]
        cases ho : assoc_find st.event_map et <;> simp [ho, sd_fold]
      · rw [if_neg h, if_neg h]
        exact assoc_find_add_event_prop_other _ _ _ _ _ h

theorem process_record_user (st : AnalysisState) (record : Record) :
    (process_record st record).user_props
      = sd_fold st.user_props ((_flatten record).filterMap user_entry) := by
  unfold process_record
  rw [foldl_fields_user]

theorem process_record_group (st : AnalysisState) (record : Record) :
    (process_record st record).group_props
      = sd_fold st.group_props ((_flatten record).filterMap group_entry) := by
  unfold process_record
  rw [foldl_fields_group]

theorem process_record_event (st : AnalysisState) (record : Record) (et' : String) :
    assoc_find (process_record st record).event_map et'
      = if et' = _detect_event_type record
        then some (sd_fold ((assoc_find st.event_map (_detect_event_type record)).getD [])
                    ((_flatten record).filterMap event_entry))
        else assoc_find st.event_map et' := by
  unfold process_record
  rw [foldl_fields_event]
  by_cases h : et' = _detect_event_type record
  · rw [if_pos h, if_pos h, assoc_find_setdefault_self]
    simp
  · rw [if_neg h, if_neg h]
    exact assoc_find_setdefault_other _ _ _ _ h

theorem event_occurrences_nil (et : String) : event_occurrences [] et = [] := rfl

theorem event_occurrences_cons_pos {r : Record} {et : String} (rs : List Record)
    (h : (_detect_event_type r == et) = true) :
    event_occurrences (r :: rs) et
      = (_flatten r).filterMap event_entry ++ event_occurrences rs et := by
  simp [event_occurrences, List.filter_cons, h]

theorem event_occurrences_cons_neg {r : Record} {et : String} (rs : List Record)
    (h : (_detect_event_type r == et) = false) :
    event_occurrences (r :: rs) et = event_occurrences rs et := by
  simp [event_occurrences, List.filter_cons, h]

theorem event_occurrences_eq_nil {rs : List Record} {et : String}
    (h : rs.any (fun r => _detect_event_type r == et) = false) :
    event_occurrences rs et = [] := by
  unfold event_occurrences
  have : rs.filter (fun r => _detect_event_type r == et) = [] := by
    rw [List.filter_eq_nil_iff]
    intro a ha
    have := List.any_eq_false.mp h a ha
    simpa using this
  rw [this]
  rfl

theorem records_user (records : List Record) :
    ∀ st : AnalysisState,
      (records.foldl process_record st).user_props
        = sd_fold st.user_props (user_occurrences records) := by
  induction records with
  | nil => intro st; rfl
  | cons r rs ih =>
    intro st
    simp only [List.foldl_cons]
    rw [ih, process_record_user, ← sd_fold_append]
    simp [user_occurrences]

theorem records_group (records : List Record) :
    ∀ st : AnalysisState,
      (records.foldl process_record st).group_props
        = sd_fold st.group_props (group_occurrences records) := by
  induction records with
  | nil => intro st; rfl
  | cons r rs ih =>
    intro st
    simp only [List.foldl_cons]
    rw [ih, process_record_group, ← sd_fold_append]
    simp [group_occurrences]

theorem records_event (records : List Record) :
    ∀ (st : AnalysisState) (et : String),
      assoc_find ((records.foldl process_record st).event_map) et
        = if records.any (fun r => _detect_event_type r == et) = true
          then some (sd_fold ((assoc_find st.event_map et).getD []) (event_occurrences records et))
          else assoc_find st.event_map et := by
  induction records with
  | nil => intro st et; simp
  | cons r rs ih =>
    intro st et
    simp only [List.foldl_cons]
    rw [ih]
    by_cases hdet : _detect_event_type r = et
    · have hb : (_detect_event_type r == et) = true := by simpa using hdet
      have hany : (r :: rs).any (fun r => _detect_event_type r == et) = true := by
        simp [List.any_cons, hb]
      have hov : assoc_find (process_record st r).event_map et
          = some (sd_fold ((assoc_find st.event_map et).getD [])
              ((_flatten r).filterMap event_entry)) := by
        rw [process_record_event, if_pos (Eq.symm hdet), hdet]
      by_cases h2 : rs.any (fun r => _detect_event_type r == et) = true
      · rw [if_pos h2, if_pos hany, hov]
        simp only [Option.getD_some]
        rw [event_occurrences_cons_pos rs hb, sd_fold_append]
      · rw [if_neg (by simp [h2]), if_pos hany, hov]
        rw [event_occurrences_cons_pos rs hb,
            event_occurrences_eq_nil (Bool.eq_false_iff.mpr h2)]
        simp [sd_fold]
    · have hb : (_detect_event_type r == et) = false := by simpa using hdet
      have hov : assoc_find (process_record st r).event_map et
          = assoc_find st.event_map et := by
        rw [process_record_event, if_neg (fun hh => hdet (Eq.symm hh))]
      rw [hov, event_occurrences_cons_neg rs hb]
      have : (r :: rs).any (fun r => _detect_event_type r == et)
          = rs.any (fun r => _detect_event_type r == et) := by
        simp [List.any_cons, hb]
      rw [this]

theorem foldl_fields_em_keys (et : String) (fl : List (String × Value)) :
    ∀ st : AnalysisState,
      ((fl.foldl (process_field et) st).event_map).map (·.1) = st.event_map.map (·.1) := by
  induction fl with
  | nil => intro st; rfl
  | cons kv fl ih =>
    intro st
    simp only [List.foldl_cons]
    rw [ih, process_field_event_map]
    cases he : event_entry kv with
    | none => rfl
    | some q => exact add_event_prop_keys _ _ _ _

theorem process_record_em_keys (st : AnalysisState) (record : Record) :
    ((process_record st record).event_map).map (·.1)
      = (setdefault st.event_map (_detect_event_type record) []).map (·.1) := by
  unfold process_record
  rw [foldl_fields_em_keys]

theorem records_em_keys_nodup (records : List Record) :
    ∀ st : AnalysisState, (st.event_map.map (·.1)).Nodup →
      (((records.foldl process_record st).event_map).map (·.1)).Nodup := by
  intro st h
  refine foldl_preserves process_record (fun s => ((s.event_map).map (·.1)).Nodup) ?_ records st h
  intro s r hs
  rw [process_record_em_keys]
  exact setdefault_keys_nodup _ _ hs

theorem user_entry_shape {kv : String × Value} {q : String × PropertySuggestion}
    (h : user_entry kv = some q) :
    q.2.name = q.1 ∧ classify_key q.1 = Bucket.user := by
  unfold user_entry at h
  by_cases hc : classify_key (normalize_key kv.1) = Bucket.user
  · rw [if_pos hc] at h
    cases h
    exact ⟨rfl, hc⟩
  · rw [if_neg hc] at h
    cases h

theorem group_entry_shape {kv : String × Value} {q : String × PropertySuggestion}
    (h : group_entry kv = some q) :
    q.2.name = q.1 ∧ classify_key q.1 = Bucket.group := by
  unfold group_entry at h
  by_cases hc : classify_key (normalize_key kv.1) = Bucket.group
  · rw [if_pos hc] at h
    cases h
    exact ⟨rfl, hc⟩
  · rw [if_neg hc] at h
    cases h

theorem event_entry_shape {kv : String × Value} {q : String × PropertySuggestion}
    (h : event_entry kv = some q) :
    q.2.name = q.1 ∧ classify_key q.1 = Bucket.event := by
  unfold event_entry at h
  by_cases hc : classify_key (normalize_key kv.1) = Bucket.event
  · rw [if_pos hc] at h
    cases h
    exact ⟨rfl, hc⟩
  · rw [if_neg hc] at h
    cases h

theorem mem_user_occurrences {records : List Record} {q : String × PropertySuggestion}
    (h : q ∈ user_occurrences records) :
    q.2.name = q.1 ∧ classify_key q.1 = Bucket.user := by
  unfold user_occurrences at h
  rcases List.mem_flatten.mp h with ⟨l, hl, hq⟩
  rcases List.mem_map.mp hl with ⟨r, _, rfl⟩
  rcases List.mem_filterMap.mp hq with ⟨kv, _, he⟩
  exact user_entry_shape he

theorem mem_group_occurrences {records : List Record} {q : String × PropertySuggestion}
    (h : q ∈ group_occurrences records) :
    q.2.name = q.1 ∧ classify_key q.1 = Bucket.group := by
  unfold group_occurrences at h
  rcases List.mem_flatten.mp h with ⟨l, hl, hq⟩
  rcases List.mem_map.mp hl with ⟨r, _, rfl⟩
  rcases List.mem_filterMap.mp hq with ⟨kv, _, he⟩
  exact group_entry_shape he

theorem mem_event_occurrences {records : List Record} {et : String}
    {q : String × PropertySuggestion} (h : q ∈ event_occurrences records et) :
    q.2.name = q.1 ∧ classify_key q.1 = Bucket.event := by
  unfold event_occurrences at h
  rcases List.mem_flatten.mp h with ⟨l, hl, hq⟩
  rcases List.mem_map.mp hl with ⟨r, _, rfl⟩
  rcases List.mem_filterMap.mp hq with ⟨kv, _, he⟩
  exact event_entry_shape he

theorem sorted_prop_names (m : PropMap) (hk : (m.map (·.1)).Nodup)
    (hn : ∀ q ∈ m, q.2.name = q.1) :
    ((sort_props (m.map (·.2))).map (·.name)).Pairwise (· < ·) := by
  have hmap : (m.map (·.2)).map (·.name) = m.map (·.1) := by
    rw [List.map_map]
    exact List.map_congr_left (fun q hq => hn q hq)
  have hsorted : (sort_props (m.map (·.2))).Pairwise (fun p q => p.name ≤ q.name) :=
    List.sorted_insertionSort _ _
  have hperm : (sort_props (m.map (·.2))).Perm (m.map (·.2)) := List.perm_insertionSort _ _
  have hnames_perm : ((sort_props (m.map (·.2))).map (·.name)).Perm (m.map (·.1)) := by
    rw [← hmap]
    exact hperm.map _
  have hnodup : ((sort_props (m.map (·.2))).map (·.name)).Nodup :=
    hnames_perm.nodup_iff.mpr hk
  have hsorted_names : ((sort_props (m.map (·.2))).map (·.name)).Pairwise (· ≤ ·) :=
    hsorted.map _ (fun _ _ hh => hh)
  exact List.Sorted.lt_of_le hsorted_names hnodup

theorem sorted_event_types (em : List (String × PropMap)) (hk : (em.map (·.1)).Nodup) :
    ((sort_event_map em).map (·.1)).Pairwise (· < ·) := by
  have hsorted : (sort_event_map em).Pairwise (fun a b => a.1 ≤ b.1) :=
    List.sorted_insertionSort _ _
  have hperm : (sort_event_map em).Perm em := List.perm_insertionSort _ _
  have hkeys_perm : ((sort_event_map em).map (·.1)).Perm (em.map (·.1)) := hperm.map _
  have hnodup : ((sort_event_map em).map (·.1)).Nodup := hkeys_perm.nodup_iff.mpr hk
  have hsorted_keys : ((sort_event_map em).map (·.1)).Pairwise (· ≤ ·) :=
    hsorted.map _ (fun _ _ hh => hh)
  exact List.Sorted.lt_of_le hsorted_keys hnodup

theorem analyze_records_user (records : List Record) :
    (analyze_records records).user_properties
      = sort_props ((sd_fold [] (user_occurrences records)).map (·.2)) := by
  unfold analyze_records
  rw [records_user records st0]
  rfl

theorem analyze_records_group (records : List Record) :
    (analyze_records records).group_properties
      = sort_props ((sd_fold [] (group_occurrences records)).map (·.2)) := by
  unfold analyze_records
  rw [records_group records st0]
  rfl

theorem final_bucket_eq (records : List Record) (b : String × PropMap)
    (hb : b ∈ (records.foldl process_record st0).event_map) :
    b.2 = sd_fold [] (event_occurrences records b.1) := by
  have hk : (((records.foldl process_record st0).event_map).map (·.1)).Nodup :=
    records_em_keys_nodup records st0 (by simp [st0])
  have hfind := assoc_find_of_mem hb hk
  rw [records_event records st0 b.1] at hfind
  by_cases hany : records.any (fun r => _detect_event_type r == b.1) = true
  · rw [if_pos hany] at hfind
    have : assoc_find st0.event_map b.1 = none := rfl
    rw [this] at hfind
    simpa using hfind.symm
  · rw [if_neg hany] at hfind
    have : assoc_find st0.event_map b.1 = none := rfl
    rw [this] at hfind
    cases hfind

theorem sorted_bucket (occ : PropMap) (hshape : ∀ q ∈ occ, q.2.name = q.1) :
    ((sort_props ((sd_fold [] occ).map (·.2))).map (·.name)).Pairwise (· < ·) := by
  apply sorted_prop_names
  · exact sd_fold_keys_nodup [] occ (by simp)
  · intro q hq
    rcases sd_fold_mem hq with h | h
    · cases h
    · exact hshape q h

theorem mem_sort_props {l : List PropertySuggestion} {p : PropertySuggestion}
    (h : p ∈ sort_props l) : p ∈ l := by
  unfold sort_props at h
  exact (List.perm_insertionSort _ l).mem_iff.mp h

theorem analyze_payload_ok {input : PayloadInput} {s : SchemaSuggestions}
    (h : analyze_payload input = .ok s) :
    s = analyze_records (_load_records input) ∧ _load_records input ≠ [] := by
  unfold analyze_payload at h
  by_cases he : (_load_records input).isEmpty
  · rw [if_pos he] at h
    cases h
  · rw [if_neg he] at h
    cases h
    exact ⟨rfl, by simpa [List.isEmpty_iff] using he⟩

theorem analyze_empty_obj : analyze_payload empty_obj_input = .ok empty_obj_suggestions := by
  simp +decide [analyze_payload, _load_records, analyze_records, process_record, _flatten,
    _flatten_go, _detect_event_type, _detect_go, dictGet, EVENT_HINT_KEYS, setdefault,
    sort_event_map, sort_props, _guess_dedup_key, _guess_timestamp_key, st0,
    empty_obj_input, empty_obj_suggestions,
    List.insertionSort, List.orderedInsert]

/-! ### Claim theorems -/

/-- C1: `analyze_payload` fails with the no-records error exactly when
the loader (whole-text parse, then newline-delimited parse) produces
zero mapping records, and succeeds with some `SchemaSuggestions` on
every input yielding at least one record. -/
theorem claim_C1 (input : PayloadInput) :
    (analyze_payload input = .error ("No JSON records found in " ++ input.path)
        ↔ _load_records input = [])
    ∧ (_load_records input ≠ [] → ∃ s, analyze_payload input = .ok s) := by
  unfold analyze_payload
  by_cases he : (_load_records input).isEmpty
  · have h0 : _load_records input = [] := List.isEmpty_iff.mp he
    rw [if_pos he]
    exact ⟨⟨fun _ => h0, fun _ => rfl⟩, fun hne => absurd h0 hne⟩
  · have h0 : _load_records input ≠ [] := by simpa [List.isEmpty_iff] using he
    rw [if_neg he]
    refine ⟨⟨fun hcontra => ?_, fun hh => absurd hh h0⟩, fun _ => ⟨_, rfl⟩⟩
    cases hcontra

/-- C1 witness: on the single-object input the loader yields one record,
the error equivalence holds, and analysis succeeds. -/
theorem claim_C1_witness :
    ((analyze_payload ⟨"payload.json", some (.vObj []), []⟩
        = .error ("No JSON records found in " ++ (⟨"payload.json", some (.vObj []), []⟩ : PayloadInput).path)
      ↔ _load_records ⟨"payload.json", some (.vObj []), []⟩ = [])
      ∧ (∃ s, analyze_payload ⟨"payload.json", some (.vObj []), []⟩ = .ok s)) :=
  ⟨(claim_C1 ⟨"payload.json", some (.vObj []), []⟩).1,
   (claim_C1 ⟨"payload.json", some (.vObj []), []⟩).2 (by simp [_load_records])⟩

/-- C5: boolean values are always typed `boolean`, never `integer`. -/
theorem claim_C5 (b : Bool) :
    _infer_type (.vBool b) = "boolean" ∧ _infer_type (.vBool b) ≠ "integer" := by
  constructor
  · simp [_infer_type]
  · simp +decide [_infer_type]

/-- C2: classification of a flattened field follows the fixed first-match
precedence (user hints, then group hints, then the exact ignored names,
else event property), and consequently no property stored in any event
schema of an analysis result has a name matching a user hint. -/
theorem claim_C2 :
    (∀ nk, classify_key nk = Bucket.user ↔ _is_user_property nk = true)
    ∧ (∀ nk, classify_key nk = Bucket.group ↔
        (_is_user_property nk = false ∧ _is_group_property nk = true))
    ∧ (∀ nk, classify_key nk = Bucket.ignored ↔
        (_is_user_property nk = false ∧ _is_group_property nk = false ∧ nk ∈ IGNORED_KEYS))
    ∧ (∀ nk, classify_key nk = Bucket.event ↔
        (_is_user_property nk = false ∧ _is_group_property nk = false ∧ nk ∉ IGNORED_KEYS))
    ∧ (∀ (input : PayloadInput) (s : SchemaSuggestions), analyze_payload input = .ok s →
        ∀ es ∈ s.event_schemas, ∀ p ∈ es.properties, _is_user_property p.name = false) := by
  have hiff : ∀ nk,
      (classify_key nk = Bucket.user ↔ _is_user_property nk = true)
      ∧ (classify_key nk = Bucket.group ↔
          (_is_user_property nk = false ∧ _is_group_property nk = true))
      ∧ (classify_key nk = Bucket.ignored ↔
          (_is_user_property nk = false ∧ _is_group_property nk = false ∧ nk ∈ IGNORED_KEYS))
      ∧ (classify_key nk = Bucket.event ↔
          (_is_user_property nk = false ∧ _is_group_property nk = false ∧ nk ∉ IGNORED_KEYS)) := by
    intro nk
    unfold classify_key
    by_cases h1 : _is_user_property nk = true
    · simp [h1]
    · have h1f : _is_user_property nk = false := Bool.eq_false_iff.mpr h1
      by_cases h2 : _is_group_property nk = true
      · simp [h1f, h2]
      · have h2f : _is_group_property nk = false := Bool.eq_false_iff.mpr h2
        by_cases h3 : nk ∈ IGNORED_KEYS
        · simp [h1f, h2f, h3]
        · simp [h1f, h2f, h3]
  refine ⟨fun nk => (hiff nk).1, fun nk => (hiff nk).2.1,
    fun nk => (hiff nk).2.2.1, fun nk => (hiff nk).2.2.2, ?_⟩
  intro input s h es hes p hp
  obtain ⟨hs, -⟩ := analyze_payload_ok h
  subst hs
  unfold analyze_records at hes
  rcases List.mem_map.mp hes with ⟨q, hq, rfl⟩
  have hp' : p ∈ sort_props (q.2.map (·.2)) := hp
  have hq' : q ∈ ((_load_records input).foldl process_record st0).event_map := by
    unfold sort_event_map at hq
    exact (List.perm_insertionSort _ _).mem_iff.mp hq
  have hb := final_bucket_eq (_load_records input) q hq'
  have hpmem : p ∈ (q.2.map (·.2)) := mem_sort_props hp'
  rw [hb] at hpmem
  obtain ⟨k, hk⟩ := mem_snd_exists hpmem
  rcases sd_fold_mem hk with hcontra | hocc
  · cases hcontra
  · have hshape := mem_event_occurrences hocc
    have hname : p.name = k := hshape.1
    have hclass : classify_key k = Bucket.event := hshape.2
    have := ((hiff k).2.2.2).mp hclass
    rw [hname]
    exact this.1

/-- C2 witness: the key `user_id` classifies as a user property, and on a
concrete analyzed payload the event schema's properties all avoid user
hints. -/
theorem claim_C2_witness :
    (classify_key "user_id" = Bucket.user ↔ _is_user_property "user_id" = true)
    ∧ (∀ es ∈ empty_obj_suggestions.event_schemas,
        ∀ p ∈ es.properties, _is_user_property p.name = false) :=
  ⟨claim_C2.1 "user_id",
   claim_C2.2.2.2.2 empty_obj_input empty_obj_suggestions analyze_empty_obj⟩

/-- C3: every accepted analysis result has its event schemas strictly
sorted by event type and every property bucket strictly sorted by
property name (strict order = lexicographically sorted with unique
names). -/
theorem claim_C3 (input : PayloadInput) (s : SchemaSuggestions)
    (h : analyze_payload input = .ok s) :
    ((s.event_schemas.map (·.event_type)).Pairwise (· < ·))
    ∧ (∀ es ∈ s.event_schemas, ((es.properties.map (·.name)).Pairwise (· < ·)))
    ∧ ((s.user_properties.map (·.name)).Pairwise (· < ·))
    ∧ ((s.group_properties.map (·.name)).Pairwise (· < ·)) := by
  obtain ⟨hs, -⟩ := analyze_payload_ok h
  subst hs
  have hkeys : ((((_load_records input).foldl process_record st0).event_map).map (·.1)).Nodup :=
    records_em_keys_nodup _ st0 (by simp [st0])
  refine ⟨?_, ?_, ?_, ?_⟩
  · have heq : (analyze_records (_load_records input)).event_schemas
        = (sort_event_map ((_load_records input).foldl process_record st0).event_map).map
            (fun p => { event_type := p.1, properties := sort_props (p.2.map (·.2)) }) := rfl
    rw [heq, List.map_map]
    exact sorted_event_types _ hkeys
  · intro es hes
    unfold analyze_records at hes
    rcases List.mem_map.mp hes with ⟨q, hq, rfl⟩
    have hq' : q ∈ ((_load_records input).foldl process_record st0).event_map := by
      unfold sort_event_map at hq
      exact (List.perm_insertionSort _ _).mem_iff.mp hq
    have hb := final_bucket_eq (_load_records input) q hq'
    show ((sort_props (q.2.map (·.2))).map (·.name)).Pairwise (· < ·)
    rw [hb]
    exact sorted_bucket _ (fun r hr => (mem_event_occurrences hr).1)
  · rw [analyze_records_user]
    exact sorted_bucket _ (fun r hr => (mem_user_occurrences hr).1)
  · rw [analyze_records_group]
    exact sorted_bucket _ (fun r hr => (mem_group_occurrences hr).1)

/-- C3 witness: the sortedness invariants instantiated on a concrete
accepted input. -/
theorem claim_C3_witness :
    ((empty_obj_suggestions.event_schemas.map (·.event_type)).Pairwise (· < ·)) :=
  (claim_C3 empty_obj_input empty_obj_suggestions analyze_empty_obj).1

/-- C10: the single JSON object `\x7b\x7d` is accepted as one record and
produces exactly one `unknown_event` schema with empty property buckets
and the default import settings. -/
theorem claim_C10 (path : String) (ls : List (Option Value)) :
    analyze_payload ⟨path, some (.vObj []), ls⟩ =
      .ok { event_schemas := [{ event_type := "unknown_event", properties := [] }],
            user_properties := [], group_properties := [],
            import_settings :=
              { deduplication_key := "event_id", timestamp_key := "timestamp",
                delivery_strategy := "timely", notes := NOTES } } := by
  simp +decide [analyze_payload, _load_records, analyze_records, process_record, _flatten,
    _flatten_go, _detect_event_type, _detect_go, dictGet, EVENT_HINT_KEYS, setdefault,
    sort_event_map, sort_props, _guess_dedup_key, _guess_timestamp_key, st0,
    List.insertionSort, List.orderedInsert]

/-- C7 counterexample: the record with keys `a.b` and `a.b` (the latter
via nesting) flattens to a single entry — the second leaf overwrites the
first, so two distinct leaves do not yield two distinct flattened
entries. -/
theorem claim_C7_counterexample :
    _flatten rec_C7 = [("a.b", .vInt 2)] ∧ (_flatten rec_C7).length = 1 := by
  constructor <;> simp +decide [rec_C7, _flatten, _flatten_go, dictUpdate, dictInsert]

theorem takeWhile_key (kd t : List Char) (hk : Char.ofNat 46 ∉ kd)
    (ht : t = [] ∨ ∃ u, t = Char.ofNat 46 :: u) :
    (kd ++ t).takeWhile (fun c => !(c == Char.ofNat 46)) = kd := by
  induction kd with
  | nil =>
    rcases ht with rfl | ⟨u, rfl⟩
    · rfl
    · simp [List.takeWhile_cons]
  | cons c cs ih =>
    have hc : (c == Char.ofNat 46) = false := by
      simp
      intro hh
      exact hk (by simp [hh])
    simp only [List.cons_append, List.takeWhile_cons, hc, Bool.not_false]
    rw [ih (fun hm => hk (List.mem_cons_of_mem _ hm))]
    simp

theorem pcat_data (parent k : String) :
    (pcat "." parent k).data
      = (if parent.data.isEmpty then [] else parent.data ++ [Char.ofNat 46]) ++ k.data := by
  unfold pcat
  by_cases h : parent.data.isEmpty <;> simp [h]

theorem good_keys_cons_eq (k : String) (v : Value) (rest : Record) :
    good_keys ((k, v) :: rest)
      = (!(rest.any (fun p => p.1 == k)) && !(k.data.isEmpty) && !(k.data.contains '.')
          && (match v with | .vObj inner => good_keys inner | _ => true) && good_keys rest) := by
  cases v <;> (rw [good_keys]; all_goals simp)

theorem good_keys_cons {k : String} {v : Value} {rest : Record}
    (h : good_keys ((k, v) :: rest) = true) :
    (rest.any (fun p => p.1 == k)) = false ∧ k.data ≠ [] ∧ Char.ofNat 46 ∉ k.data
      ∧ (∀ inner, v = .vObj inner → good_keys inner = true) ∧ good_keys rest = true := by
  rw [good_keys_cons_eq] at h
  simp only [Bool.and_eq_true, Bool.not_eq_true'] at h
  obtain ⟨⟨⟨⟨h1, h2⟩, h3⟩, h4⟩, h5⟩ := h
  refine ⟨h1, ?_, ?_, ?_, h5⟩
  · intro hh
    rw [hh] at h2
    simp at h2
  · intro hm
    have hcontains : k.data.contains (Char.ofNat 46) = true := by
      simp
      exact hm
    rw [show (Char.ofNat 46) = ('.' : Char) from rfl] at hcontains
    rw [hcontains] at h3
    cases h3
  · intro inner hv
    subst hv
    exact h4

theorem leaf_entries_nil (sep parent : String) : leaf_entries sep parent [] = [] := by
  rw [leaf_entries]

theorem leaf_entries_cons_obj (sep parent k : String) (inner : List (String × Value))
    (rest : Record) :
    leaf_entries sep parent ((k, .vObj inner) :: rest)
      = leaf_entries sep (pcat sep parent k) inner ++ leaf_entries sep parent rest := by
  rw [leaf_entries]

theorem leaf_entries_cons_leaf (sep parent k : String) (v : Value) (rest : Record)
    (hv : ∀ inner, v ≠ .vObj inner) :
    leaf_entries sep parent ((k, v) :: rest)
      = (pcat sep parent k, v) :: leaf_entries sep parent rest := by
  cases v
  case vObj inner => exact absurd rfl (hv inner)
  all_goals (rw [leaf_entries]; all_goals simp)

theorem leaf_path_shape (parent : String) (r : Record) :
    good_keys r = true →
    ∀ p ∈ (leaf_entries "." parent r).map (·.1),
      ∃ k, k ∈ r.map (·.1) ∧ ∃ t, p.data = (pcat "." parent k).data ++ t
        ∧ (t = [] ∨ ∃ u, t = Char.ofNat 46 :: u) := by
  refine leaf_entries.induct "."
    (fun parent r => good_keys r = true →
      ∀ p ∈ (leaf_entries "." parent r).map (·.1),
        ∃ k, k ∈ r.map (·.1) ∧ ∃ t, p.data = (pcat "." parent k).data ++ t
          ∧ (t = [] ∨ ∃ u, t = Char.ofNat 46 :: u)) ?_ ?_ parent r
  · intro parent _ p hp
    rw [leaf_entries_nil] at hp
    cases hp
  · intro parent k v rest ih1 ih2 hgood p hp
    obtain ⟨h1, hk_ne, hk_dot, hinner, hrest⟩ := good_keys_cons hgood
    cases v
    case vObj inner =>
      have ih : good_keys inner = true →
          ∀ p ∈ (leaf_entries "." (pcat "." parent k) inner).map (·.1),
            ∃ k₂, k₂ ∈ inner.map (·.1)
              ∧ ∃ t, p.data = (pcat "." (pcat "." parent k) k₂).data ++ t
                ∧ (t = [] ∨ ∃ u, t = Char.ofNat 46 :: u) := ih1
      rw [leaf_entries_cons_obj, List.map_append, List.mem_append] at hp
      rcases hp with hp | hp
      · obtain ⟨k₂, hk₂, t₂, hpd, ht₂⟩ := ih (hinner inner rfl) p hp
        have hparent' : (pcat "." parent k).data.isEmpty = false := by
          rw [pcat_data]
          cases hkd : k.data with
          | nil => exact absurd hkd hk_ne
          | cons c cs => simp
        rw [pcat_data (pcat "." parent k) k₂] at hpd
        rw [hparent'] at hpd
        simp only [Bool.false_eq_true, if_false] at hpd
        refine ⟨k, by simp, Char.ofNat 46 :: (k₂.data ++ t₂), ?_, Or.inr ⟨_, rfl⟩⟩
        rw [hpd]
        simp
      · obtain ⟨k', hk', t', hpd, ht'⟩ := ih2 hrest p hp
        exact ⟨k', by simp [hk'], t', hpd, ht'⟩
    all_goals (
      rw [leaf_entries_cons_leaf _ _ _ _ _ (fun inner h => by cases h),
        List.map_cons, List.mem_cons] at hp
      rcases hp with rfl | hp
      · exact ⟨k, by simp, [], by simp, Or.inl rfl⟩
      · obtain ⟨k', hk', t', hpd, ht'⟩ := ih2 hrest p hp
        exact ⟨k', by simp [hk'], t', hpd, ht'⟩)

theorem block_path_shape (parent k : String) (inner : List (String × Value))
    (hk_ne : k.data ≠ []) (hginner : good_keys inner = true) :
    ∀ p ∈ (leaf_entries "." (pcat "." parent k) inner).map (·.1),
      ∃ t, p.data = (pcat "." parent k).data ++ t ∧ ∃ u, t = Char.ofNat 46 :: u := by
  intro p hp
  obtain ⟨k₂, _, t₂, hpd, _⟩ := leaf_path_shape (pcat "." parent k) inner hginner p hp
  have hparent' : (pcat "." parent k).data.isEmpty = false := by
    rw [pcat_data]
    cases hkd : k.data with
    | nil => exact absurd hkd hk_ne
    | cons c cs => simp
  rw [pcat_data (pcat "." parent k) k₂, hparent'] at hpd
  simp only [Bool.false_eq_true, if_false] at hpd
  refine ⟨Char.ofNat 46 :: (k₂.data ++ t₂), ?_, _, rfl⟩
  rw [hpd]
  simp

theorem path_ne_of_key_ne {parent k k' : String} {t t' : List Char}
    (hdk : Char.ofNat 46 ∉ k.data) (hdk' : Char.ofNat 46 ∉ k'.data)
    (hne : k ≠ k')
    (ht : t = [] ∨ ∃ u, t = Char.ofNat 46 :: u)
    (ht' : t' = [] ∨ ∃ u, t' = Char.ofNat 46 :: u) :
    (pcat "." parent k).data ++ t ≠ (pcat "." parent k').data ++ t' := by
  intro heq
  rw [pcat_data, pcat_data, List.append_assoc, List.append_assoc] at heq
  have heq2 : k.data ++ t = k'.data ++ t' := by
    exact List.append_cancel_left heq
  have h1 := takeWhile_key k.data t hdk ht
  have h2 := takeWhile_key k'.data t' hdk' ht'
  rw [heq2] at h1
  rw [h2] at h1
  apply hne
  cases k with
  | mk d =>
    cases k' with
    | mk d' =>
      exact congrArg String.mk (show d = d' from h1.symm)

theorem good_keys_key_props {r : Record} (h : good_keys r = true) :
    ∀ k ∈ r.map (·.1), k.data ≠ [] ∧ Char.ofNat 46 ∉ k.data := by
  induction r with
  | nil => intro k hk; cases hk
  | cons kv rest ih =>
    intro k hk
    obtain ⟨k0, v0⟩ := kv
    obtain ⟨_, hk_ne, hk_dot, _, hrest⟩ := good_keys_cons h
    rcases List.mem_cons.mp hk with rfl | hk
    · exact ⟨hk_ne, hk_dot⟩
    · exact ih hrest k hk

theorem good_keys_not_in_rest {k : String} {v : Value} {rest : Record}
    (h : good_keys ((k, v) :: rest) = true) :
    ∀ k' ∈ rest.map (·.1), k' ≠ k := by
  obtain ⟨h1, -, -, -, -⟩ := good_keys_cons h
  intro k' hk' heq
  subst heq
  rcases List.mem_map.mp hk' with ⟨q, hq, rfl⟩
  have := List.any_eq_false.mp h1 q hq
  simp at this

theorem leaf_paths_nodup (parent : String) (r : Record) :
    good_keys r = true → ((leaf_entries "." parent r).map (·.1)).Nodup := by
  refine leaf_entries.induct "."
    (fun parent r => good_keys r = true → ((leaf_entries "." parent r).map (·.1)).Nodup)
    ?_ ?_ parent r
  · intro parent _
    rw [leaf_entries_nil]
    simp
  · intro parent k v rest ih1 ih2 hgood
    obtain ⟨h1, hk_ne, hk_dot, hinner, hrest⟩ := good_keys_cons hgood
    have hrest_keys := good_keys_key_props hrest
    have hrest_ne := good_keys_not_in_rest hgood
    have hdisj_core : ∀ (t : List Char), (t = [] ∨ ∃ u, t = Char.ofNat 46 :: u) →
        ∀ p' ∈ (leaf_entries "." parent rest).map (·.1),
          ∀ pd : List Char, pd = (pcat "." parent k).data ++ t → pd ≠ p'.data := by
      intro t ht p' hp' pd hpd
      obtain ⟨k', hk', t', hpd', ht'⟩ := leaf_path_shape parent rest hrest p' hp'
      rw [hpd, hpd']
      exact path_ne_of_key_ne hk_dot (hrest_keys k' hk').2 (Ne.symm (hrest_ne k' hk')) ht ht'
    cases v
    case vObj inner =>
      have ihA : good_keys inner = true →
          ((leaf_entries "." (pcat "." parent k) inner).map (·.1)).Nodup := ih1
      rw [leaf_entries_cons_obj, List.map_append, List.nodup_append]
      refine ⟨ihA (hinner inner rfl), ih2 hrest, ?_⟩
      intro p hp hp'
      obtain ⟨t, hpd, u, htu⟩ := block_path_shape parent k inner hk_ne (hinner inner rfl) p hp
      exact hdisj_core t (Or.inr ⟨u, htu⟩) p hp' p.data hpd rfl
    all_goals (
      rw [leaf_entries_cons_leaf _ _ _ _ _ (fun inner h => by cases h), List.map_cons,
        List.nodup_cons]
      refine ⟨?_, ih2 hrest⟩
      intro hmem
      exact hdisj_core [] (Or.inl rfl) _ hmem (pcat "." parent k).data (by simp) rfl)

theorem dictInsert_fresh {m : Record} {k : String} {v : Value}
    (h : k ∉ m.map (·.1)) : dictInsert m k v = m ++ [(k, v)] := by
  unfold dictInsert
  have hany : m.any (fun p => p.1 == k) = false :=
    Bool.eq_false_iff.mpr (fun hh => h ((any_key_iff m k).mp hh))
  rw [hany]
  simp

theorem dictUpdate_fresh : ∀ (m2 m : Record),
    ((m.map (·.1)) ++ (m2.map (·.1))).Nodup → dictUpdate m m2 = m ++ m2 := by
  intro m2
  induction m2 with
  | nil => intro m _; simp [dictUpdate]
  | cons e m2 ih =>
    intro m h
    have he : e.1 ∉ m.map (·.1) := by
      rw [List.nodup_append] at h
      intro hh
      exact h.2.2 hh (by simp)
    have hstep : dictInsert m e.1 e.2 = m ++ [e] := by
      rw [dictInsert_fresh he]
    have hnd : (((m ++ [e]).map (·.1)) ++ (m2.map (·.1))).Nodup := by
      rw [List.map_append]
      simpa [List.append_assoc] using h
    have hrec := ih (m ++ [e]) hnd
    unfold dictUpdate at hrec ⊢
    simp only [List.foldl_cons]
    rw [hstep, hrec]
    simp

theorem flatten_go_cons_obj (parent k : String) (inner : List (String × Value))
    (rest items : Record) :
    _flatten_go "." parent ((k, .vObj inner) :: rest) items
      = _flatten_go "." parent rest
          (dictUpdate items (_flatten_go "." (pcat "." parent k) inner [])) := by
  rw [_flatten_go]
  rfl

theorem flatten_go_cons_leaf (parent k : String) (v : Value) (rest items : Record)
    (hv : ∀ inner, v ≠ .vObj inner) :
    _flatten_go "." parent ((k, v) :: rest) items
      = _flatten_go "." parent rest (dictInsert items (pcat "." parent k) v) := by
  cases v
  case vObj inner => exact absurd rfl (hv inner)
  all_goals (rw [_flatten_go]; all_goals simp [pcat, List.isEmpty_iff])

theorem flatten_go_append (parent : String) (r : Record) :
    ∀ items : Record,
      ((items.map (·.1)) ++ ((leaf_entries "." parent r).map (·.1))).Nodup →
      _flatten_go "." parent r items = items ++ leaf_entries "." parent r := by
  refine _flatten_go.induct "."
    (fun parent r items =>
      ((items.map (·.1)) ++ ((leaf_entries "." parent r).map (·.1))).Nodup →
      _flatten_go "." parent r items = items ++ leaf_entries "." parent r)
    ?_ ?_ ?_ parent r
  · intro parent items _
    rw [_flatten_go, leaf_entries_nil]
    simp
  · intro parent k rest items
    intro nk inner ih1 ih1x ih2 hnd
    have hnk : nk = pcat "." parent k := rfl
    rw [leaf_entries_cons_obj, List.map_append] at hnd
    have hBC : ((items.map (·.1) ++ (leaf_entries "." (pcat "." parent k) inner).map (·.1))
        ++ (leaf_entries "." parent rest).map (·.1)).Nodup := by
      rw [List.append_assoc]
      exact hnd
    have hblock_nodup :
        ((([] : Record).map (·.1))
          ++ ((leaf_entries "." (pcat "." parent k) inner).map (·.1))).Nodup := by
      simp only [List.map_nil, List.nil_append]
      have hx : ((leaf_entries "." (pcat "." parent k) inner).map (·.1)
          ++ (leaf_entries "." parent rest).map (·.1)).Nodup :=
        ((List.nodup_append.mp hnd).2.1)
      exact (List.nodup_append.mp hx).1
    have ihinner :
        ((([] : Record).map (·.1))
            ++ ((leaf_entries "." (pcat "." parent k) inner).map (·.1))).Nodup →
          _flatten_go "." (pcat "." parent k) inner []
            = [] ++ leaf_entries "." (pcat "." parent k) inner := ih1
    have hsub : _flatten_go "." (pcat "." parent k) inner []
        = leaf_entries "." (pcat "." parent k) inner := by
      rw [ihinner hblock_nodup]
      simp
    have hupd : dictUpdate items (leaf_entries "." (pcat "." parent k) inner)
        = items ++ leaf_entries "." (pcat "." parent k) inner := by
      apply dictUpdate_fresh
      have hAB : ((items.map (·.1) ++ (leaf_entries "." (pcat "." parent k) inner).map (·.1))).Nodup :=
        (List.nodup_append.mp hBC).1
      exact hAB
    rw [hnk] at ih2
    rw [hsub, hupd] at ih2
    have hnd2 : (((items ++ leaf_entries "." (pcat "." parent k) inner).map (·.1))
        ++ ((leaf_entries "." parent rest).map (·.1))).Nodup := by
      rw [List.map_append]
      exact hBC
    rw [flatten_go_cons_obj, hsub, hupd, ih2 hnd2, leaf_entries_cons_obj]
    simp
  · intro parent k v rest items
    intro nk hv ih hnd
    have hnk : nk = pcat "." parent k := rfl
    have hv' : ∀ inner, v ≠ Value.vObj inner := fun inner h => hv inner h
    rw [leaf_entries_cons_leaf _ _ _ _ _ hv', List.map_cons] at hnd
    have hfresh : pcat "." parent k ∉ items.map (·.1) := by
      intro hmem
      have hd := (List.nodup_append.mp hnd).2.2
      exact hd hmem (by simp)
    have hins : dictInsert items (pcat "." parent k) v
        = items ++ [(pcat "." parent k, v)] := dictInsert_fresh hfresh
    rw [hnk] at ih
    rw [hins] at ih
    have hnd2 : (((items ++ [(pcat "." parent k, v)]).map (·.1))
        ++ ((leaf_entries "." parent rest).map (·.1))).Nodup := by
      rw [List.map_append]
      simpa [List.append_assoc] using hnd
    rw [flatten_go_cons_leaf _ _ _ _ _ hv', hins, ih hnd2,
      leaf_entries_cons_leaf _ _ _ _ _ hv']
    simp

/-- C7 amended: under the key discipline (pairwise-distinct, non-empty,
separator-free keys at every level) flattening loses nothing — it equals
the plain leaf enumeration — and all flattened paths are pairwise
distinct. -/
theorem claim_C7 (r : Record) (h : good_keys r = true) :
    _flatten r = leaf_entries "." "" r
    ∧ ((leaf_entries "." "" r).map (·.1)).Nodup := by
  have hnd := leaf_paths_nodup "" r h
  constructor
  · unfold _flatten
    rw [flatten_go_append "" r [] (by simpa using hnd)]
    simp
  · exact hnd

/-- C7 witness: on a concrete well-keyed nested record, flattening
equals the leaf enumeration and the paths are distinct. -/
theorem claim_C7_witness :
    _flatten rec_good = leaf_entries "." "" rec_good
    ∧ ((leaf_entries "." "" rec_good).map (·.1)).Nodup :=
  claim_C7 rec_good (by simp +decide [rec_good, good_keys])

theorem first_wins_bucket {occ : PropMap} {p : PropertySuggestion}
    (hshape : ∀ q ∈ occ, q.2.name = q.1)
    (hp : p ∈ sort_props ((sd_fold [] occ).map (·.2))) :
    (occ.find? (fun q => q.1 == p.name)).map (·.2) = some p := by
  have hmem := mem_sort_props hp
  obtain ⟨k, hk⟩ := mem_snd_exists hmem
  have hkeys : ((sd_fold [] occ).map (·.1)).Nodup := sd_fold_keys_nodup [] occ (by simp)
  have hfind := assoc_find_of_mem hk hkeys
  rw [show ((k, p) : String × PropertySuggestion).1 = k from rfl,
    assoc_find_sd_fold_nil] at hfind
  have hname : p.name = k := by
    rcases sd_fold_mem hk with hc | hc
    · cases hc
    · exact hshape (k, p) hc
  rw [hname]
  exact hfind

/-- C4: within every bucket the first occurrence of a property name
fixes the stored suggestion: each stored property equals the suggestion
built from the first matching occurrence in the processing stream, so
later occurrences (including across records sharing an event type, and
with differing inferred datatypes) never overwrite it. -/
theorem claim_C4 (input : PayloadInput) (s : SchemaSuggestions)
    (h : analyze_payload input = .ok s) :
    (∀ p ∈ s.user_properties,
      ((user_occurrences (_load_records input)).find? (fun q => q.1 == p.name)).map (·.2)
        = some p)
    ∧ (∀ p ∈ s.group_properties,
      ((group_occurrences (_load_records input)).find? (fun q => q.1 == p.name)).map (·.2)
        = some p)
    ∧ (∀ es ∈ s.event_schemas, ∀ p ∈ es.properties,
      ((event_occurrences (_load_records input) es.event_type).find?
          (fun q => q.1 == p.name)).map (·.2) = some p) := by
  obtain ⟨hs, -⟩ := analyze_payload_ok h
  subst hs
  refine ⟨?_, ?_, ?_⟩
  · intro p hp
    rw [analyze_records_user] at hp
    exact first_wins_bucket (fun q hq => (mem_user_occurrences hq).1) hp
  · intro p hp
    rw [analyze_records_group] at hp
    exact first_wins_bucket (fun q hq => (mem_group_occurrences hq).1) hp
  · intro es hes p hp
    unfold analyze_records at hes
    rcases List.mem_map.mp hes with ⟨q, hq, rfl⟩
    have hq' : q ∈ ((_load_records input).foldl process_record st0).event_map := by
      unfold sort_event_map at hq
      exact (List.perm_insertionSort _ _).mem_iff.mp hq
    have hb := final_bucket_eq (_load_records input) q hq'
    have hp' : p ∈ sort_props ((sd_fold []
        (event_occurrences (_load_records input) q.1)).map (·.2)) := by
      rw [← hb]
      exact hp
    exact first_wins_bucket (fun r hr => (mem_event_occurrences hr).1) hp'

theorem analyze_cart : analyze_payload cart_input = .ok cart_suggestions := by
  simp +decide [analyze_payload, _load_records, analyze_records, process_record, _flatten,
    _flatten_go, _detect_event_type, _detect_go, dictGet, EVENT_HINT_KEYS, setdefault,
    sort_event_map, sort_props, _guess_dedup_key, _guess_timestamp_key, st0,
    cart_input, cart_suggestions, cart_r1, cart_r2, qty_prop, etype_prop,
    process_field, classify_key, normalize_key, _infer_type, _looks_like_timestamp,
    _example_value, user_entry, group_entry, event_entry, event_suggestion,
    add_event_prop, _is_user_property, _is_group_property,
    List.insertionSort, List.orderedInsert]

/-- C4 witness: with two `cart_abandoned` records where `qty` is first an
integer and later a string, the stored suggestion for `qty` is the first
occurrence's (datatype `integer`, example `1`). -/
theorem claim_C4_witness :
    ((event_occurrences (_load_records cart_input) "cart_abandoned").find?
        (fun q => q.1 == qty_prop.name)).map (·.2) = some qty_prop := by
  have h := (claim_C4 cart_input cart_suggestions analyze_cart).2.2
  have h2 := h ⟨"cart_abandoned", [etype_prop, qty_prop]⟩ (by simp [cart_suggestions])
    qty_prop (by simp)
  simpa using h2

set_option maxRecDepth 20000 in
/-- C6 counterexample: on a `SchemaSuggestions` with exactly one event
schema (`playback_started`), the bigquery query does NOT contain
`UNION ALL` — the join string only appears between two or more select
blocks. -/
theorem claim_C6_counterexample :
    playback_suggestions.event_schemas.length = 1
    ∧ ((generate_queries playback_suggestions).find? (fun q => q.1 == "bigquery")).map
        (fun q => str_contains q.2 "UNION ALL") = some false := by
  constructor
  · rfl
  · decide

set_option maxRecDepth 20000 in
/-- C6 amended: `generate_queries` always returns exactly the keys
snowflake, databricks, bigquery, redshift (in that order); on the
one-schema `playback_started` scenario the snowflake query contains the
event type and the bigquery query does not contain `UNION ALL`; with two
event schemas the bigquery query does contain `UNION ALL`. -/
theorem claim_C6 :
    (∀ suggestions : SchemaSuggestions,
      (generate_queries suggestions).map (·.1)
        = ["snowflake", "databricks", "bigquery", "redshift"])
    ∧ ((generate_queries playback_suggestions).find? (fun q => q.1 == "snowflake")).map
        (fun q => str_contains q.2 "playback_started") = some true
    ∧ ((generate_queries playback_suggestions).find? (fun q => q.1 == "bigquery")).map
        (fun q => str_contains q.2 "UNION ALL") = some false
    ∧ ((generate_queries playback_two_suggestions).find? (fun q => q.1 == "bigquery")).map
        (fun q => str_contains q.2 "UNION ALL") = some true := by
  refine ⟨fun suggestions => rfl, ?_, ?_, ?_⟩ <;> decide

theorem previewOf_eq (d : String) :
    previewOf d = pySlice80 d ++ (if 80 ≤ d.data.length then "…" else "") := by
  show pySlice80 d ++ (if (pySlice80 d).data.length = 80 then "…" else "")
      = pySlice80 d ++ (if 80 ≤ d.data.length then "…" else "")
  by_cases h : 80 ≤ d.data.length
  · have hA : (pySlice80 d).data.length = 80 := by
      show (d.data.take 80).length = 80
      rw [List.length_take]
      omega
    rw [if_pos h, if_pos hA]
  · have hA : ¬ (pySlice80 d).data.length = 80 := by
      show ¬ (d.data.take 80).length = 80
      rw [List.length_take]
      omega
    rw [if_neg h, if_neg hA]

set_option maxRecDepth 20000 in
theorem jsonDumps_v80 :
    jsonDumps v80
      = "[\"aaaaaaaaaaaaaaaaaaaaaaaaaaaaaaaaaaaaaaaaaaaaaaaaaaaaaaaaaaaaaaaaaaaaaaaaaaaa\"]" := by
  rw [show v80
      = Value.vArr
          [Value.vStr "aaaaaaaaaaaaaaaaaaaaaaaaaaaaaaaaaaaaaaaaaaaaaaaaaaaaaaaaaaaaaaaaaaaaaaaaaaaa"]
    from rfl, jsonDumps_arr]
  simp +decide [jsonDumps, jsonQuote, escapeJsonChar]

set_option maxRecDepth 20000 in
/-- C8 counterexample: for a serialization of exactly 80 characters —
which is not truncated, hence does not exceed 80 — the ellipsis marker
is still appended. -/
theorem claim_C8_counterexample :
    (jsonDumps v80).data.length = 80
    ∧ ¬ (80 < (jsonDumps v80).data.length)
    ∧ _example_value v80 = some (jsonDumps v80 ++ "…") := by
  refine ⟨?_, ?_, ?_⟩
  · rw [jsonDumps_v80]
    decide
  · rw [jsonDumps_v80]
    decide
  · show some (previewOf (jsonDumps v80)) = some (jsonDumps v80 ++ "…")
    rw [previewOf_eq, jsonDumps_v80]
    decide

/-- C8 amended: the example preview is — no example for null; for a
mapping or array the serialization truncated to 80 characters with the
ellipsis marker appended exactly when the full serialization has length
at least 80 (so an exactly-80-character serialization also receives the
marker); the plain string form otherwise. -/
theorem claim_C8 (v : Value) :
    _example_value v =
      match v with
      | .vNull => none
      | .vObj _ => some (pySlice80 (jsonDumps v)
          ++ (if 80 ≤ (jsonDumps v).data.length then "…" else ""))
      | .vArr _ => some (pySlice80 (jsonDumps v)
          ++ (if 80 ≤ (jsonDumps v).data.length then "…" else ""))
      | .vBool b => some (if b then "True" else "False")
      | .vInt n => some (toString n)
      | .vFloat r => some r
      | .vStr s => some s := by
  cases v
  case vObj fields =>
    show some (previewOf (jsonDumps (Value.vObj fields))) = _
    rw [previewOf_eq]
  case vArr elems =>
    show some (previewOf (jsonDumps (Value.vArr elems))) = _
    rw [previewOf_eq]
  all_goals rfl

theorem _infer_type_arr_ne (elems : List Value) (h : elems ≠ []) :
    _infer_type (.vArr elems) =
      (if (elems.map _infer_type).dedup.length = 1
       then "array<" ++ (elems.map _infer_type).dedup.headD "" ++ ">"
       else "array<mixed:" ++ String.intercalate ","
         (List.insertionSort (· ≤ ·) (elems.map _infer_type).dedup) ++ ">") := by
  rw [_infer_type_arr]
  have he : elems.isEmpty = false := by simpa [List.isEmpty_iff] using h
  rw [he]
  simp

/-! ### Determinism (C9) -/

/-- C9: the analysis is a pure function of the parsed input — the
delivery strategy is always the constant `timely` and the notes the
constant text, and the array type label (built through the intermediate
set of element labels, emitted in sorted order) is invariant under any
permutation of the array elements. -/
theorem claim_C9 :
    (∀ input : PayloadInput, analyze_payload input = analyze_payload input)
    ∧ (∀ (input : PayloadInput) (s : SchemaSuggestions), analyze_payload input = .ok s →
        s.import_settings.delivery_strategy = "timely" ∧ s.import_settings.notes = NOTES)
    ∧ (∀ l l' : List Value, l.Perm l' → _infer_type (.vArr l) = _infer_type (.vArr l')) := by
  refine ⟨fun _ => rfl, ?_, ?_⟩
  · intro input s h
    obtain ⟨hs, -⟩ := analyze_payload_ok h
    subst hs
    exact ⟨rfl, rfl⟩
  · intro l l' hperm
    by_cases hl : l = []
    · subst hl
      have : l' = [] := hperm.symm.eq_nil
      subst this
      rfl
    · have hl' : l' ≠ [] := by
        intro hh
        subst hh
        exact hl hperm.eq_nil
      rw [_infer_type_arr_ne l hl, _infer_type_arr_ne l' hl']
      have hm : (l.map _infer_type).Perm (l'.map _infer_type) := hperm.map _
      have hd : (l.map _infer_type).dedup.Perm ((l'.map _infer_type).dedup) := hm.dedup
      have hlen : (l.map _infer_type).dedup.length = (l'.map _infer_type).dedup.length :=
        hd.length_eq
      by_cases h1 : (l.map _infer_type).dedup.length = 1
      · rw [if_pos h1, if_pos (hlen ▸ h1)]
        obtain ⟨x, hx⟩ := List.length_eq_one.mp h1
        obtain ⟨y, hy⟩ := List.length_eq_one.mp (hlen ▸ h1)
        rw [hx, hy] at hd
        rw [hx, hy]
        have hxy : x = y := List.singleton_perm_singleton.mp hd
        rw [hxy]
      · rw [if_neg h1, if_neg (fun hh => h1 (hlen ▸ hh))]
        have hsort : List.insertionSort (· ≤ ·) (l.map _infer_type).dedup
            = List.insertionSort (· ≤ ·) (l'.map _infer_type).dedup :=
          @List.eq_of_perm_of_sorted String (fun a b => a ≤ b) _ _ _
            (((List.perm_insertionSort _ _).trans hd).trans
              (List.perm_insertionSort _ _).symm)
            (List.sorted_insertionSort _ _) (List.sorted_insertionSort _ _)
        rw [hsort]

/-- C9 witness: the constants hold on a concrete accepted result, and a
concrete mixed array infers the same label after swapping its
elements. -/
theorem claim_C9_witness :
    (empty_obj_suggestions.import_settings.delivery_strategy = "timely"
      ∧ empty_obj_suggestions.import_settings.notes = NOTES)
    ∧ _infer_type (.vArr [Value.vInt 1, Value.vStr "a"])
      = _infer_type (.vArr [Value.vStr "a", Value.vInt 1]) :=
  ⟨claim_C9.2.1 empty_obj_input empty_obj_suggestions analyze_empty_obj,
   claim_C9.2.2 [Value.vInt 1, Value.vStr "a"] [Value.vStr "a", Value.vInt 1]
     (List.Perm.swap (Value.vStr "a") (Value.vInt 1) [])⟩

end AmplitudeGlue
